import Mathlib

/- Shallow embedding of the fishbAIT inference data pipeline:
   src/inference_utils/pytorch_data_utils.py (PreProcessDataForInference,
   Inference_dataset, BuildInferenceDataLoaderAndDataset) and the batch
   Predict handler of src/app.py.

   Modelling conventions:
   - a pandas dataframe is a list of rows plus optional encoding columns
     (a column is a list aligned positionally with the rows);
   - numpy integer one hot vectors are lists of naturals;
   - a raised Python exception is an Option String or Except String value;
   - Python list.remove wrapped in try/except pass is List.erase, which
     removes the first occurrence and is the identity when absent;
   - a Python dict built by dict(zip(keys, vals)) is an association list
     looked up with later-binding-wins semantics (dictLookup). -/

/-- Row of the uploaded table: the two categorical columns consumed by the
one hot encoders in PreProcessDataForInference. -/
structure Row where
  endpoint : String
  effect : String
deriving DecidableEq, Repr

/-- Line 70 of pytorch_data_utils.py: dataframe.loc[endpoint == NOEC] := EC10,
rewriting every NOEC row to EC10. -/
def renameNOEC (rows : List Row) : List Row :=
  rows.map (fun r => if r.endpoint = "NOEC" then { r with endpoint := "EC10" } else r)

/-- Lines 68-74: when EC10 is among the declared endpoint labels, NOEC is
removed from the label list (Python list.remove inside try/except pass:
first occurrence only, identity when absent). -/
def workingEndpointLabels (labels : List String) : List String :=
  if "EC10" ∈ labels then labels.erase "NOEC" else labels

/-- Rows of self.dataframe after the conditional NOEC merge of lines 68-74. -/
def mergedEndpointRows (rows : List Row) (labels : List String) : List Row :=
  if "EC10" ∈ labels then renameNOEC rows else rows

/-- Line 69: the reported count sum(dataframe.endpoint == NOEC), computed
before the rename; the print only happens in the EC10 branch. -/
def noecMergeCount (rows : List Row) (labels : List String) : Nat :=
  if "EC10" ∈ labels then (rows.filter (fun r => r.endpoint == "NOEC")).length else 0

/-- Row i of the n by n identity matrix np.eye(n, dtype=int). -/
def eyeRow (n i : Nat) : List Nat :=
  (List.range n).map (fun j => if j = i then 1 else 0)

/-- np.eye(n, dtype=int).tolist(): the list of identity matrix rows. -/
def eyeRows (n : Nat) : List (List Nat) :=
  (List.range n).map (eyeRow n)

/-- Lookup in a Python dict built by dict(zip(keys, vals)): a later binding
of the same key overwrites an earlier one, hence the recursion tries the
tail first. -/
def dictLookup (pairs : List (String × List Nat)) (x : String) : Option (List Nat) :=
  match pairs with
  | [] => none
  | (k, v) :: rest =>
    match dictLookup rest x with
    | some w => some w
    | none => if k = x then some v else none

/-- Line 77: encoding_order = [EC50, EC10], fixed regardless of the caller
supplied endpoint label list. -/
def endpointEncodingOrder : List String := ["EC50", "EC10"]

/-- Line 78: hot_enc_dict = dict(zip(encoding_order, np.eye(2).tolist())). -/
def endpointHotEnc : String → Option (List Nat) :=
  dictLookup (endpointEncodingOrder.zip (eyeRows endpointEncodingOrder.length))

/-- Line 96: hot_enc_dict = dict(zip(list_of_effects, np.eye(n).tolist())),
keyed by the caller supplied effect labels in caller order. -/
def effectHotEnc (labels : List String) : String → Option (List Nat) :=
  dictLookup (labels.zip (eyeRows labels.length))

/-- Message of the exception raised at lines 84 and 102. -/
def unexpectedErrorMsg : String := "An unexpected error occurred."

/-- Lines 81-84 and 99-102: dataframe.column.apply(lambda x: hot_enc_dict[x]).
A KeyError on any row is caught and re-raised as the generic exception;
evaluation is row by row from the top, stopping at the first failure. -/
def encodeColumn (lookup : String → Option (List Nat)) (get : Row → String) :
    List Row → Except String (List (List Nat))
  | [] => .ok []
  | r :: rs =>
    match lookup (get r) with
    | none => .error unexpectedErrorMsg
    | some v =>
      match encodeColumn lookup get rs with
      | .ok c => .ok (v :: c)
      | .error e => .error e

/-- State visible after a call of the private method GetOneHotEndpoint:
rows of self.dataframe (merged even when an exception was raised), the
attached OneHotEnc_endpoint column when one was attached, the raised
exception message when one was raised, the caller visible (in place
mutated) endpoint label list, and the printed NOEC merge count. -/
structure EndpointEncResult where
  rows : List Row
  col : Option (List (List Nat))
  err : Option String
  labels : List String
  mergeCount : Nat
deriving DecidableEq, Repr

/-- Lines 64-89 of pytorch_data_utils.py, method GetOneHotEndpoint:
conditional NOEC merge, then an indicator column is attached exactly when
the working label list still has more than one entry; the lookup dict is
always built from the fixed encoding_order, never from the caller list. -/
def GetOneHotEndpoint (rows : List Row) (labels : List String) : EndpointEncResult :=
  let rows2 := mergedEndpointRows rows labels
  let labels2 := workingEndpointLabels labels
  if 1 < labels2.length then
    match encodeColumn endpointHotEnc (fun r => r.endpoint) rows2 with
    | .ok c => ⟨rows2, some c, none, labels2, noecMergeCount rows labels⟩
    | .error e => ⟨rows2, none, some e, labels2, noecMergeCount rows labels⟩
  else ⟨rows2, none, none, labels2, noecMergeCount rows labels⟩

/-- Outcome of the private method GetOneHotEffect: the attached
OneHotEnc_effect column, or the raised exception message. -/
structure EffectEncResult where
  col : Option (List (List Nat))
  err : Option String
deriving DecidableEq, Repr

/-- Lines 91-107 of pytorch_data_utils.py, method GetOneHotEffect: an
indicator column is attached exactly when the caller supplied effect label
list has more than one entry; the dict is keyed by those labels in caller
order. -/
def GetOneHotEffect (rows : List Row) (labels : List String) : EffectEncResult :=
  if 1 < labels.length then
    match encodeColumn (effectHotEnc labels) (fun r => r.effect) rows with
    | .ok c => ⟨some c, none⟩
    | .error e => ⟨none, some e⟩
  else ⟨none, none⟩

/-- Lines 38-49: the OneHotEnc_concatenated column. Column discovery by the
OneHotEnc name filter returns insertion order, endpoint first then effect.
With two columns the rows are horizontally concatenated; with one column it
is taken as is; with none the IndexError on columns[0] is caught and every
row receives the single zero np.zeros((n,1)) entry. -/
def concatOneHot (n : Nat) (epCol efCol : Option (List (List Nat))) : List (List Nat) :=
  match epCol, efCol with
  | none, none => (List.range n).map (fun _ => [0])
  | some c, none => c
  | none, some c => c
  | some c1, some c2 => List.zipWith (fun a b => a ++ b) c1 c2

/-- State visible after GetOneHotEnc: the dataframe rows and columns, the
propagated exception if any, and the caller visible endpoint label list and
merge count from the endpoint phase. -/
structure EncResult where
  rows : List Row
  endpointCol : Option (List (List Nat))
  effectCol : Option (List (List Nat))
  concatCol : Option (List (List Nat))
  err : Option String
  endpointLabels : List String
  mergeCount : Nat
deriving DecidableEq, Repr

/-- Lines 29-52 of pytorch_data_utils.py, method GetOneHotEnc: endpoint
encoding, then effect encoding, then the concatenated column; an exception
raised by either encoder propagates and the concatenated column is never
attached in that case. -/
def GetOneHotEnc (rows : List Row) (eps effs : List String) : EncResult :=
  let ep := GetOneHotEndpoint rows eps
  match ep.err with
  | some e => ⟨ep.rows, ep.col, none, none, some e, ep.labels, ep.mergeCount⟩
  | none =>
    let ef := GetOneHotEffect ep.rows effs
    match ef.err with
    | some e => ⟨ep.rows, ep.col, ef.col, none, some e, ep.labels, ep.mergeCount⟩
    | none =>
      ⟨ep.rows, ep.col, ef.col, some (concatOneHot ep.rows.length ep.col ef.col),
        none, ep.labels, ep.mergeCount⟩

/-- Lines 110-114 of pytorch_data_utils.py, method CanonicalizeRDKit.
The RDKit calls are abstracted: molFromSmiles returns none when parsing
fails (MolFromSmiles yields None, or raises, so MolToSmiles on it raises);
molToSmiles returns none when serialization raises. The bare except clause
absorbs every failure and returns the input string, so the function is
total by construction. -/
def CanonicalizeRDKit {Mol : Type} (molFromSmiles : String → Option Mol)
    (molToSmiles : Mol → Option String) (s : String) : String :=
  match molFromSmiles s with
  | none => s
  | some m =>
    match molToSmiles m with
    | none => s
    | some c => c

/-- Lines 55-61, method GetCanonicalSMILES: the canonicalizer applied to
every entry of the SMILES column. -/
def GetCanonicalSMILES {Mol : Type} (molFromSmiles : String → Option Mol)
    (molToSmiles : Mol → Option String) (smilesCol : List String) : List String :=
  smilesCol.map (CanonicalizeRDKit molFromSmiles molToSmiles)

/-- Row of the dataframe handed to Inference_dataset: the three designated
columns (canonical SMILES, exposure duration, combined one hot vector).
Floating point values are modelled as rationals. -/
structure InfRow where
  smiles : String
  exposure_duration : Rat
  onehot : List Rat
deriving DecidableEq, Repr

/-- Sample dict produced by Inference_dataset getitem at lines 137-147. -/
structure Sample where
  input_ids : List Nat
  attention_mask : List Nat
  duration : Rat
  onehotenc : List Rat
deriving DecidableEq, Repr

/-- Lines 137-147 of pytorch_data_utils.py, Inference_dataset getitem:
tokenize the SMILES (the tokenizer is an abstract black box producing ids
and mask; truncation to max_len is modelled as List.take) and carry the
duration and one hot vector through unchanged. No shape validation of the
one hot vector happens here: each row is converted in isolation. -/
def infGetItem (tok : String → List Nat × List Nat) (maxLen : Nat) (r : InfRow) : Sample :=
  ⟨(tok r.smiles).1.take maxLen, (tok r.smiles).2.take maxLen,
    r.exposure_duration, r.onehot⟩

/-- Torch SequentialSampler over a dataset of n rows: indices 0..n-1 in
order, no shuffling. -/
def sequentialSampler (n : Nat) : List Nat := List.range n

/-- Grouping of a sampler index stream into batches of size b by the torch
DataLoader: consecutive chunks, the last possibly shorter. Fuel recursion;
with fuel at least the list length and positive b the chunks cover the
whole list. -/
def chunksAux (b : Nat) : Nat → List Nat → List (List Nat)
  | _, [] => []
  | 0, _ :: _ => []
  | fuel + 1, x :: xs => ((x :: xs).take b) :: chunksAux b fuel ((x :: xs).drop b)

/-- Index batches yielded by the DataLoader built at lines 161-174 of
pytorch_data_utils.py (SequentialSampler plus batch_size grouping). -/
def dataLoaderIndexBatches (n b : Nat) : List (List Nat) :=
  chunksAux b (sequentialSampler n).length (sequentialSampler n)

/-- Sample batches yielded by the DataLoader before the padding collator
runs: each index batch is mapped through the dataset getitem. This is the
whole of the pipeline in src between the dataframe and the collator; it
contains no shape consistency check. -/
def dataLoaderSampleBatches (tok : String → List Nat × List Nat) (maxLen : Nat)
    (df : List InfRow) (b : Nat) : List (List Sample) :=
  (dataLoaderIndexBatches df.length b).map
    (fun ib => ib.filterMap (fun i => (df.get? i).map (infGetItem tok maxLen)))

/-- Round to two decimal digits as np.round does, with ties to even (the
binary floating point representation is abstracted to exact rationals). -/
def npRound2 (q : Rat) : Rat :=
  let f : Int := Int.floor (q * 100)
  let r : Rat := q * 100 - (f : Rat)
  let z : Int :=
    if r < 1/2 then f
    else if 1/2 < r then f + 1
    else if f % 2 = 0 then f else f + 1
  (z : Rat) / 100

/-- Lines 62-74 of src/app.py, the Predict button handler in the batch
branch. The loader is the sequential loader over the n row table with the
given batch size; the model forward pass is an abstract function from a
batch of samples to one raw prediction per sample, and 10 to the power y
is the abstract tenPow (its value never matters to the control flow).
Faithful points: the loop rebinds out on every batch, so after the loop
only the final batch survives; with an empty loader the name out is unbound
at its first use (NameError); the two result columns are assigned from out,
and pandas rejects a column whose length differs from the table length. -/
def appBatchPredict (modelForward : List Sample → List Rat) (tenPow : Rat → Rat)
    (tok : String → List Nat × List Nat) (maxLen : Nat)
    (df : List InfRow) (batchSize : Nat) : Except String (List (Rat × Rat)) :=
  let batches := dataLoaderSampleBatches tok maxLen df batchSize
  match batches.getLast? with
  | none => .error "NameError: name out is not defined"
  | some lastBatch =>
    let out := (modelForward lastBatch).map npRound2
    if out.length = df.length then
      .ok (out.map (fun y => (y, tenPow y)))
    else
      .error "Length of values does not match length of index"

/-- Row entry of an optional one hot column: the sub vector contributed by
that column to row i (empty when the column is absent). Used to state the
concatenation property of GetOneHotEnc. -/
def colEntry (c : Option (List (List Nat))) (i : Nat) : List Nat :=
  match c with
  | none => []
  | some col => (col.get? i).getD []

/- Helper lemmas about the embedded operations. -/

theorem chunksAux_join (b : Nat) (hb : 0 < b) :
    ∀ (fuel : Nat) (l : List Nat), l.length ≤ fuel → (chunksAux b fuel l).flatten = l := by
  intro fuel
  induction fuel with
  | zero =>
    intro l hl
    have : l = [] := List.length_eq_zero.mp (Nat.le_zero.mp hl)
    subst this
    rfl
  | succ f ih =>
    intro l hl
    cases l with
    | nil => rfl
    | cons x xs =>
      have hdrop : ((x :: xs).drop b).length ≤ f := by
        simp only [List.length_drop, List.length_cons] at hl ⊢
        omega
      simp only [chunksAux, List.flatten_cons, ih _ hdrop, List.take_append_drop]

theorem chunksAux_ne_nil (b fuel : Nat) (l : List Nat) (hl : l ≠ []) (hf : 0 < fuel) :
    chunksAux b fuel l ≠ [] := by
  cases l with
  | nil => exact absurd rfl hl
  | cons x xs =>
    cases fuel with
    | zero => omega
    | succ f => simp [chunksAux]

theorem chunksAux_dropLast_length (b : Nat) (hb : 0 < b) :
    ∀ (fuel : Nat) (l : List Nat), l.length ≤ fuel →
      ∀ c ∈ (chunksAux b fuel l).dropLast, c.length = b := by
  intro fuel
  induction fuel with
  | zero =>
    intro l hl c hc
    have : l = [] := List.length_eq_zero.mp (Nat.le_zero.mp hl)
    subst this
    simp [chunksAux] at hc
  | succ f ih =>
    intro l hl c hc
    cases l with
    | nil => simp [chunksAux] at hc
    | cons x xs =>
      by_cases hdrop : (x :: xs).drop b = []
      · simp [chunksAux, hdrop] at hc
      · have hdlen : ((x :: xs).drop b).length ≤ f := by
          simp only [List.length_drop, List.length_cons] at hl ⊢
          omega
        have hfpos : 0 < f := by
          have h1 : 0 < ((x :: xs).drop b).length := List.length_pos.mpr hdrop
          omega
        have hrest : chunksAux b f ((x :: xs).drop b) ≠ [] :=
          chunksAux_ne_nil b f _ hdrop hfpos
        have hblt : b < (x :: xs).length := by
          by_contra hle
          exact hdrop (List.drop_eq_nil_of_le (by omega))
        simp only [chunksAux] at hc
        rw [List.dropLast_cons_of_ne_nil hrest] at hc
        rcases List.mem_cons.mp hc with h | h
        · subst h
          simp only [List.length_take]
          omega
        · exact ih _ hdlen c h

theorem chunksAux_mem_length (b : Nat) (hb : 0 < b) :
    ∀ (fuel : Nat) (l : List Nat), ∀ c ∈ chunksAux b fuel l, 0 < c.length ∧ c.length ≤ b := by
  intro fuel
  induction fuel with
  | zero =>
    intro l c hc
    cases l <;> simp [chunksAux] at hc
  | succ f ih =>
    intro l c hc
    cases l with
    | nil => simp [chunksAux] at hc
    | cons x xs =>
      simp only [chunksAux] at hc
      rcases List.mem_cons.mp hc with h | h
      · subst h
        constructor
        · simp only [List.length_take, List.length_cons]
          omega
        · simp only [List.length_take]
          omega
      · exact ih _ c h

theorem join_map_filterMap {α β : Type} (g : α → Option β) (L : List (List α)) :
    (L.map (fun l => l.filterMap g)).flatten = L.flatten.filterMap g := by
  induction L with
  | nil => rfl
  | cons l ls ih =>
    simp only [List.map_cons, List.flatten_cons, List.filterMap_append, ih]

theorem range_filterMap_get {α β : Type} (h : α → β) (l : List α) :
    (List.range l.length).filterMap (fun i => (l.get? i).map h) = l.map h := by
  induction l with
  | nil => rfl
  | cons a l ih =>
    rw [List.length_cons, List.range_succ_eq_map]
    simp only [List.filterMap_cons, List.get?_cons_zero, List.filterMap_map,
      Function.comp_def, List.get?_cons_succ]
    simp only [List.get?_eq_getElem?] at ih
    simp [ih]

theorem encodeColumn_ok_of_forall (lookup : String → Option (List Nat)) (get : Row → String)
    (rows : List Row) (h : ∀ r ∈ rows, (lookup (get r)).isSome) :
    encodeColumn lookup get rows = .ok (rows.map (fun r => (lookup (get r)).getD [])) := by
  induction rows with
  | nil => rfl
  | cons r rs ih =>
    obtain ⟨v, hv⟩ := Option.isSome_iff_exists.mp (h r (List.mem_cons_self r rs))
    have hrs := ih (fun x hx => h x (List.mem_cons_of_mem r hx))
    simp [encodeColumn, hv, hrs]

theorem encodeColumn_error_of_mem (lookup : String → Option (List Nat)) (get : Row → String)
    (rows : List Row) (r : Row) (hr : r ∈ rows) (hnone : lookup (get r) = none) :
    encodeColumn lookup get rows = .error unexpectedErrorMsg := by
  induction rows with
  | nil => cases hr
  | cons a rs ih =>
    rcases List.mem_cons.mp hr with h | h
    · subst h
      simp [encodeColumn, hnone]
    · cases ha : lookup (get a) with
      | none => simp [encodeColumn, ha]
      | some v => simp [encodeColumn, ha, ih h]

theorem encodeColumn_ok_length (lookup : String → Option (List Nat)) (get : Row → String)
    (rows : List Row) (c : List (List Nat)) (h : encodeColumn lookup get rows = .ok c) :
    c.length = rows.length := by
  induction rows generalizing c with
  | nil =>
    simp only [encodeColumn] at h
    cases h
    rfl
  | cons a rs ih =>
    simp only [encodeColumn] at h
    cases ha : lookup (get a) with
    | none =>
      rw [ha] at h
      cases h
    | some v =>
      rw [ha] at h
      cases hrec : encodeColumn lookup get rs with
      | ok cs =>
        rw [hrec] at h
        cases h
        simp [ih cs hrec]
      | error e =>
        rw [hrec] at h
        cases h

theorem dictLookup_eq_none_of_forall (pairs : List (String × List Nat)) (x : String)
    (h : ∀ p ∈ pairs, p.1 ≠ x) : dictLookup pairs x = none := by
  induction pairs with
  | nil => rfl
  | cons p rest ih =>
    obtain ⟨k, v⟩ := p
    have hk : k ≠ x := h (k, v) (List.mem_cons_self _ _)
    have hrest := ih (fun q hq => h q (List.mem_cons_of_mem _ hq))
    simp [dictLookup, hrest, hk]

theorem dictLookup_cons (k : String) (v : List Nat) (rest : List (String × List Nat))
    (x : String) :
    dictLookup ((k, v) :: rest) x =
      match dictLookup rest x with
      | some w => some w
      | none => if k = x then some v else none := rfl

theorem dictLookup_zip_eq_none_iff (keys : List String) (vals : List (List Nat))
    (hlen : keys.length ≤ vals.length) (x : String) :
    dictLookup (keys.zip vals) x = none ↔ x ∉ keys := by
  induction keys generalizing vals with
  | nil => simp [dictLookup]
  | cons k ks ih =>
    cases vals with
    | nil => simp at hlen
    | cons v vs =>
      have hlen2 : ks.length ≤ vs.length := by
        simp only [List.length_cons] at hlen
        omega
      rw [List.zip_cons_cons, dictLookup_cons]
      cases hd : dictLookup (ks.zip vs) x with
      | some w =>
        have hxks : x ∈ ks := by
          by_contra hx
          rw [← ih vs hlen2] at hx
          simp [hd] at hx
        simp [hxks]
      | none =>
        have hks : x ∉ ks := (ih vs hlen2).mp hd
        by_cases hk : k = x
        · subst hk
          simp
        · simp [hk, hks, Ne.symm hk]

theorem dictLookup_zip_nodup_get (keys : List String) (vals : List (List Nat))
    (hnd : keys.Nodup) (hlen : keys.length ≤ vals.length) (j : Nat) (hj : j < keys.length) :
    dictLookup (keys.zip vals) (keys.get ⟨j, hj⟩) = vals.get? j := by
  induction keys generalizing vals j with
  | nil => cases hj
  | cons k ks ih =>
    cases vals with
    | nil => simp at hlen
    | cons v vs =>
      have hlen2 : ks.length ≤ vs.length := by
        simp only [List.length_cons] at hlen
        omega
      cases j with
      | zero =>
        have hk : k ∉ ks := (List.nodup_cons.mp hnd).1
        have hnone : dictLookup (ks.zip vs) k = none :=
          (dictLookup_zip_eq_none_iff ks vs hlen2 k).mpr hk
        have hget : (k :: ks).get ⟨0, hj⟩ = k := rfl
        rw [List.zip_cons_cons, hget]
        simp only [List.get?_cons_zero]
        rw [dictLookup_cons, hnone]
        simp
      | succ i =>
        have hnd2 : ks.Nodup := (List.nodup_cons.mp hnd).2
        have hi : i < ks.length := by
          simp only [List.length_cons] at hj
          omega
        have htail := ih vs hnd2 hlen2 i hi
        have hvs : i < vs.length := lt_of_lt_of_le hi hlen2
        have hw : vs.get? i = some (vs.get ⟨i, hvs⟩) := by
          rw [List.get?_eq_getElem?, List.getElem?_eq_getElem hvs]
          rfl
        rw [List.zip_cons_cons]
        simp only [List.get_cons_succ, List.get?_cons_succ]
        rw [dictLookup_cons, htail, hw]

theorem endpointHotEnc_eq (x : String) :
    endpointHotEnc x = if x = "EC10" then some [0, 1]
      else if x = "EC50" then some [1, 0] else none := by
  by_cases h10 : x = "EC10"
  · subst h10
    decide
  · by_cases h50 : x = "EC50"
    · subst h50
      decide
    · rw [if_neg h10, if_neg h50]
      unfold endpointHotEnc
      apply (dictLookup_zip_eq_none_iff _ _ (by decide) x).mpr
      simp [endpointEncodingOrder, h10, h50]

theorem effectHotEnc_eq_none_iff (labels : List String) (x : String) :
    effectHotEnc labels x = none ↔ x ∉ labels := by
  unfold effectHotEnc
  exact dictLookup_zip_eq_none_iff labels (eyeRows labels.length) (by simp [eyeRows]) x

theorem effectHotEnc_get (labels : List String) (hnd : labels.Nodup) (j : Nat)
    (hj : j < labels.length) :
    effectHotEnc labels (labels.get ⟨j, hj⟩) = some (eyeRow labels.length j) := by
  unfold effectHotEnc
  rw [dictLookup_zip_nodup_get labels _ hnd (by simp [eyeRows]) j hj]
  have hj2 : j < (eyeRows labels.length).length := by simp [eyeRows, hj]
  rw [List.get?_eq_getElem?, List.getElem?_eq_getElem hj2]
  simp [eyeRows]

theorem GetOneHotEndpoint_rows (rows : List Row) (labels : List String) :
    (GetOneHotEndpoint rows labels).rows = mergedEndpointRows rows labels := by
  simp only [GetOneHotEndpoint]
  split
  · split <;> rfl
  · rfl

theorem GetOneHotEndpoint_labels (rows : List Row) (labels : List String) :
    (GetOneHotEndpoint rows labels).labels = workingEndpointLabels labels := by
  simp only [GetOneHotEndpoint]
  split
  · split <;> rfl
  · rfl

theorem GetOneHotEndpoint_mergeCount (rows : List Row) (labels : List String) :
    (GetOneHotEndpoint rows labels).mergeCount = noecMergeCount rows labels := by
  simp only [GetOneHotEndpoint]
  split
  · split <;> rfl
  · rfl

theorem GetOneHotEndpoint_of_ok (rows : List Row) (labels : List String)
    (h1 : 1 < (workingEndpointLabels labels).length)
    (h2 : ∀ r ∈ mergedEndpointRows rows labels, (endpointHotEnc r.endpoint).isSome) :
    GetOneHotEndpoint rows labels =
      ⟨mergedEndpointRows rows labels,
        some ((mergedEndpointRows rows labels).map
          (fun r => (endpointHotEnc r.endpoint).getD [])),
        none, workingEndpointLabels labels, noecMergeCount rows labels⟩ := by
  simp only [GetOneHotEndpoint, if_pos h1, encodeColumn_ok_of_forall _ _ _ h2]

theorem GetOneHotEndpoint_of_err (rows : List Row) (labels : List String)
    (h1 : 1 < (workingEndpointLabels labels).length)
    (r : Row) (hr : r ∈ mergedEndpointRows rows labels)
    (hbad : endpointHotEnc r.endpoint = none) :
    GetOneHotEndpoint rows labels =
      ⟨mergedEndpointRows rows labels, none, some unexpectedErrorMsg,
        workingEndpointLabels labels, noecMergeCount rows labels⟩ := by
  simp only [GetOneHotEndpoint, if_pos h1, encodeColumn_error_of_mem _ _ _ r hr hbad]

theorem GetOneHotEndpoint_of_single (rows : List Row) (labels : List String)
    (h1 : ¬ 1 < (workingEndpointLabels labels).length) :
    GetOneHotEndpoint rows labels =
      ⟨mergedEndpointRows rows labels, none, none, workingEndpointLabels labels,
        noecMergeCount rows labels⟩ := by
  simp only [GetOneHotEndpoint, if_neg h1]

theorem GetOneHotEffect_of_ok (rows : List Row) (labels : List String)
    (h1 : 1 < labels.length)
    (h2 : ∀ r ∈ rows, (effectHotEnc labels r.effect).isSome) :
    GetOneHotEffect rows labels =
      ⟨some (rows.map (fun r => (effectHotEnc labels r.effect).getD [])), none⟩ := by
  simp only [GetOneHotEffect, if_pos h1, encodeColumn_ok_of_forall _ _ _ h2]

theorem GetOneHotEffect_of_err (rows : List Row) (labels : List String)
    (h1 : 1 < labels.length) (r : Row) (hr : r ∈ rows)
    (hbad : effectHotEnc labels r.effect = none) :
    GetOneHotEffect rows labels = ⟨none, some unexpectedErrorMsg⟩ := by
  simp only [GetOneHotEffect, if_pos h1, encodeColumn_error_of_mem _ _ _ r hr hbad]

theorem GetOneHotEffect_of_single (rows : List Row) (labels : List String)
    (h1 : ¬ 1 < labels.length) :
    GetOneHotEffect rows labels = ⟨none, none⟩ := by
  simp only [GetOneHotEffect, if_neg h1]

theorem GetOneHotEndpoint_col_iff (rows : List Row) (labels : List String)
    (h : (GetOneHotEndpoint rows labels).err = none) :
    ((GetOneHotEndpoint rows labels).col.isSome ↔
      1 < (workingEndpointLabels labels).length) := by
  by_cases h1 : 1 < (workingEndpointLabels labels).length
  · simp only [GetOneHotEndpoint, if_pos h1] at h ⊢
    cases henc : encodeColumn endpointHotEnc (fun r => r.endpoint)
        (mergedEndpointRows rows labels) with
    | ok c => simp [h1]
    | error e =>
      rw [henc] at h
      simp at h
  · simp [GetOneHotEndpoint_of_single rows labels h1, h1]

theorem GetOneHotEffect_col_iff (rows : List Row) (labels : List String)
    (h : (GetOneHotEffect rows labels).err = none) :
    ((GetOneHotEffect rows labels).col.isSome ↔ 1 < labels.length) := by
  by_cases h1 : 1 < labels.length
  · simp only [GetOneHotEffect, if_pos h1] at h ⊢
    cases henc : encodeColumn (effectHotEnc labels) (fun r => r.effect) rows with
    | ok c => simp [h1]
    | error e =>
      rw [henc] at h
      simp at h
  · simp [GetOneHotEffect_of_single rows labels h1, h1]

theorem GetOneHotEnc_err_none_parts (rows : List Row) (eps effs : List String)
    (h : (GetOneHotEnc rows eps effs).err = none) :
    (GetOneHotEndpoint rows eps).err = none
    ∧ (GetOneHotEffect (GetOneHotEndpoint rows eps).rows effs).err = none
    ∧ GetOneHotEnc rows eps effs =
      ⟨(GetOneHotEndpoint rows eps).rows, (GetOneHotEndpoint rows eps).col,
        (GetOneHotEffect (GetOneHotEndpoint rows eps).rows effs).col,
        some (concatOneHot (GetOneHotEndpoint rows eps).rows.length
          (GetOneHotEndpoint rows eps).col
          (GetOneHotEffect (GetOneHotEndpoint rows eps).rows effs).col),
        none, (GetOneHotEndpoint rows eps).labels,
        (GetOneHotEndpoint rows eps).mergeCount⟩ := by
  cases hep : (GetOneHotEndpoint rows eps).err with
  | some e =>
    exfalso
    simp only [GetOneHotEnc, hep] at h
    exact Option.some_ne_none e h
  | none =>
    cases hef : (GetOneHotEffect (GetOneHotEndpoint rows eps).rows effs).err with
    | some e =>
      exfalso
      simp only [GetOneHotEnc, hep, hef] at h
      exact Option.some_ne_none e h
    | none =>
      exact ⟨rfl, rfl, by simp only [GetOneHotEnc, hep, hef]⟩

theorem GetOneHotEnc_err_none_parts2 (rows : List Row) (eps effs : List String)
    (hep : (GetOneHotEndpoint rows eps).err = none)
    (hef : (GetOneHotEffect (GetOneHotEndpoint rows eps).rows effs).err = none) :
    GetOneHotEnc rows eps effs =
      ⟨(GetOneHotEndpoint rows eps).rows, (GetOneHotEndpoint rows eps).col,
        (GetOneHotEffect (GetOneHotEndpoint rows eps).rows effs).col,
        some (concatOneHot (GetOneHotEndpoint rows eps).rows.length
          (GetOneHotEndpoint rows eps).col
          (GetOneHotEffect (GetOneHotEndpoint rows eps).rows effs).col),
        none, (GetOneHotEndpoint rows eps).labels,
        (GetOneHotEndpoint rows eps).mergeCount⟩ := by
  simp only [GetOneHotEnc, hep, hef]

/- Claim theorems. -/

/-- C6: for every input string on which SMILES parsing fails, the
canonicalizer returns the original input string unchanged; the embedded
function is total, so no exception reaches the caller (the bare Python
except clause absorbs every failure). -/
theorem C6_canonicalize_fallback {Mol : Type} (molFromSmiles : String → Option Mol)
    (molToSmiles : Mol → Option String) (s : String) (h : molFromSmiles s = none) :
    CanonicalizeRDKit molFromSmiles molToSmiles s = s := by
  unfold CanonicalizeRDKit
  rw [h]

/-- Witness for C6: a parser that fails on everything leaves a malformed
input string untouched. -/
theorem C6_witness :
    CanonicalizeRDKit (fun _ : String => (none : Option Unit)) (fun _ => none)
      "this is not a smiles" = "this is not a smiles" :=
  C6_canonicalize_fallback (fun _ => none) (fun _ => none) "this is not a smiles" rfl

/-- C5: the sequential loader yields batches in strict original row order
with no shuffling: every batch except possibly the last has exactly b
entries, every batch is nonempty with at most b entries, and the
concatenation of the row origin indices of all batches is 0..n-1 in
order. -/
theorem C5_loader_preserves_order (n b : Nat) (hb : 0 < b) :
    (dataLoaderIndexBatches n b).flatten = List.range n
    ∧ (∀ c ∈ (dataLoaderIndexBatches n b).dropLast, c.length = b)
    ∧ (∀ c ∈ dataLoaderIndexBatches n b, 0 < c.length ∧ c.length ≤ b) := by
  unfold dataLoaderIndexBatches sequentialSampler
  exact ⟨chunksAux_join b hb _ _ (le_refl _),
    chunksAux_dropLast_length b hb _ _ (le_refl _),
    fun c hc => chunksAux_mem_length b hb _ _ c hc⟩

/-- Witness for C5 at n = 5 rows and batch size 2. -/
theorem C5_witness :
    (dataLoaderIndexBatches 5 2).flatten = List.range 5 :=
  (C5_loader_preserves_order 5 2 (by decide)).1

/-- C1 counterexample: a table whose endpoint column holds the single
distinct value EC50 still receives a OneHotEnc_endpoint column when the
caller declares the two labels EC50 and EC10, refuting the claim that the
attachment decision is driven by the set of distinct values present in
the table and that an all EC50 table gets no column regardless of the
declared labels. -/
theorem C1_counterexample :
    (∀ r ∈ [Row.mk "EC50" "MOR", Row.mk "EC50" "MOR"], r.endpoint = "EC50")
    ∧ (GetOneHotEnc [Row.mk "EC50" "MOR", Row.mk "EC50" "MOR"]
        ["EC50", "EC10"] ["MOR"]).endpointCol = some [[1, 0], [1, 0]] := by
  decide

/-- C1 amended: on every run of GetOneHotEnc that returns without raising,
the endpoint indicator column is present exactly when the working endpoint
label list (the caller declared list after the NOEC merge removal) has
more than one entry, and the effect indicator column is present exactly
when the caller declared effect label list has more than one entry; the
set of distinct values present in the table plays no role in the
decision. -/
theorem C1_amended (rows : List Row) (eps effs : List String)
    (h : (GetOneHotEnc rows eps effs).err = none) :
    ((GetOneHotEnc rows eps effs).endpointCol.isSome ↔
      1 < (workingEndpointLabels eps).length)
    ∧ ((GetOneHotEnc rows eps effs).effectCol.isSome ↔ 1 < effs.length) := by
  obtain ⟨hep, hef, heq⟩ := GetOneHotEnc_err_none_parts rows eps effs h
  rw [heq]
  exact ⟨GetOneHotEndpoint_col_iff rows eps hep,
    GetOneHotEffect_col_iff _ effs hef⟩

/-- Witness for C1 amended: one declared endpoint label and one declared
effect label give no columns even on a two valued table. -/
theorem C1_amended_witness :
    ((GetOneHotEnc [Row.mk "EC50" "MOR", Row.mk "EC10" "MOR"]
        ["EC50"] ["MOR"]).endpointCol.isSome ↔
      1 < (workingEndpointLabels ["EC50"]).length)
    ∧ ((GetOneHotEnc [Row.mk "EC50" "MOR", Row.mk "EC10" "MOR"]
        ["EC50"] ["MOR"]).effectCol.isSome ↔ 1 < (["MOR"] : List String).length) :=
  C1_amended [Row.mk "EC50" "MOR", Row.mk "EC10" "MOR"] ["EC50"] ["MOR"] (by decide)

/-- Shared helper: when NOEC occurs at most once in the label list, it is
gone after List.erase. -/
theorem noec_not_mem_erase (labels : List String)
    (hcount : labels.count "NOEC" ≤ 1) : "NOEC" ∉ labels.erase "NOEC" := by
  intro hmem
  have h1 : 0 < (labels.erase "NOEC").count "NOEC" := List.count_pos_iff.mpr hmem
  rw [List.count_erase_self] at h1
  omega

/-- C2 counterexample: with declared labels [EC10, NOEC, NOEC] the Python
list.remove call removes only the first NOEC, so NOEC is still in the
working label list after the merge, refuting the claim that NOEC is
removed from the working label list for every caller supplied list. -/
theorem C2_counterexample :
    "EC10" ∈ ["EC10", "NOEC", "NOEC"]
    ∧ "NOEC" ∈ (GetOneHotEndpoint [Row.mk "NOEC" "MOR"]
        ["EC10", "NOEC", "NOEC"]).labels := by
  decide

/-- C2 amended: when EC10 is among the declared endpoint labels, the merge
rewrites every NOEC row to EC10 (no NOEC endpoint remains afterwards), the
reported merge count is the number of rows labelled NOEC before the merge,
and the first occurrence of NOEC is removed from the working label list,
so NOEC is absent from it whenever it occurred at most once. -/
theorem C2_amended (rows : List Row) (labels : List String) (h : "EC10" ∈ labels) :
    (GetOneHotEndpoint rows labels).rows = renameNOEC rows
    ∧ (∀ r ∈ (GetOneHotEndpoint rows labels).rows, r.endpoint ≠ "NOEC")
    ∧ (GetOneHotEndpoint rows labels).mergeCount
        = (rows.filter (fun r => r.endpoint == "NOEC")).length
    ∧ (GetOneHotEndpoint rows labels).labels = labels.erase "NOEC"
    ∧ (labels.count "NOEC" ≤ 1 → "NOEC" ∉ (GetOneHotEndpoint rows labels).labels) := by
  rw [GetOneHotEndpoint_rows, GetOneHotEndpoint_labels, GetOneHotEndpoint_mergeCount]
  refine ⟨by simp [mergedEndpointRows, h], ?_, by simp [noecMergeCount, h],
    by simp [workingEndpointLabels, h], ?_⟩
  · intro r hr
    rw [mergedEndpointRows, if_pos h] at hr
    obtain ⟨r0, hr0, hmap⟩ := List.mem_map.mp hr
    by_cases hN : r0.endpoint = "NOEC"
    · rw [← hmap]
      simp only [if_pos hN]
      decide
    · rw [← hmap]
      simp only [if_neg hN]
      exact hN
  · intro hcount
    rw [workingEndpointLabels, if_pos h]
    exact noec_not_mem_erase labels hcount

/-- Witness for C2 amended at a one row NOEC table and a duplicate free
label list. -/
theorem C2_amended_witness :
    (GetOneHotEndpoint [Row.mk "NOEC" "MOR"] ["EC10", "NOEC"]).labels
      = (["EC10", "NOEC"] : List String).erase "NOEC" :=
  (C2_amended [Row.mk "NOEC" "MOR"] ["EC10", "NOEC"] (by decide)).2.2.2.1

/-- C10 counterexample: with the caller list [EC10, NOEC, NOEC], which
contains both EC10 and NOEC, the call leaves one NOEC in the caller list
(list.remove only removes the first occurrence), refuting the claim that
the list no longer contains NOEC after the call. -/
theorem C10_counterexample :
    "EC10" ∈ ["EC10", "NOEC", "NOEC"]
    ∧ "NOEC" ∈ ["EC10", "NOEC", "NOEC"]
    ∧ "NOEC" ∈ (GetOneHotEndpoint [Row.mk "EC50" "MOR"]
        ["EC10", "NOEC", "NOEC"]).labels := by
  decide

/-- C10 amended: when EC10 is in the caller supplied endpoint label list
the call removes the first occurrence of NOEC from that list in place (so
the list no longer contains NOEC whenever NOEC occurred at most once), and
the list is left unchanged when EC10 is not in it. -/
theorem C10_amended (rows : List Row) (labels : List String) :
    ("EC10" ∈ labels →
      (GetOneHotEndpoint rows labels).labels = labels.erase "NOEC")
    ∧ ("EC10" ∈ labels → labels.count "NOEC" ≤ 1 →
      "NOEC" ∉ (GetOneHotEndpoint rows labels).labels)
    ∧ ("EC10" ∉ labels → (GetOneHotEndpoint rows labels).labels = labels) := by
  rw [GetOneHotEndpoint_labels]
  refine ⟨fun h => by simp [workingEndpointLabels, h],
    fun h hc => ?_, fun h => by simp [workingEndpointLabels, h]⟩
  rw [workingEndpointLabels, if_pos h]
  exact noec_not_mem_erase labels hc

/-- Witness for C10 amended: both implications discharged at concrete
lists. -/
theorem C10_amended_witness :
    (GetOneHotEndpoint [Row.mk "EC50" "MOR"] ["EC10", "NOEC"]).labels
      = (["EC10", "NOEC"] : List String).erase "NOEC"
    ∧ (GetOneHotEndpoint [Row.mk "EC50" "MOR"] ["EC50"]).labels = ["EC50"] :=
  ⟨(C10_amended [Row.mk "EC50" "MOR"] ["EC10", "NOEC"]).1 (by decide),
    (C10_amended [Row.mk "EC50" "MOR"] ["EC50"]).2.2 (by decide)⟩

/-- C7: when an indicator column is being attached (the relevant working
label list has more than one entry) and some row carries a label outside
the key set of the lookup dict, the encoder raises the generic exception
with the message of line 84 resp. 102, the exception propagates out of
GetOneHotEnc (aborting the whole request, as its caller does not catch
it), and neither the offending indicator column nor the concatenated
column is attached. First conjunct: endpoint encoding; second conjunct:
effect encoding after a successful endpoint phase. -/
theorem C7_unknown_label_error (rows : List Row) (eps effs : List String) :
    (∀ r : Row, 1 < (workingEndpointLabels eps).length →
      r ∈ mergedEndpointRows rows eps →
      endpointHotEnc r.endpoint = none →
      (GetOneHotEnc rows eps effs).err = some unexpectedErrorMsg
      ∧ (GetOneHotEnc rows eps effs).endpointCol = none
      ∧ (GetOneHotEnc rows eps effs).concatCol = none)
    ∧ (∀ r : Row, (GetOneHotEndpoint rows eps).err = none →
      1 < effs.length →
      r ∈ (GetOneHotEndpoint rows eps).rows →
      effectHotEnc effs r.effect = none →
      (GetOneHotEnc rows eps effs).err = some unexpectedErrorMsg
      ∧ (GetOneHotEnc rows eps effs).effectCol = none
      ∧ (GetOneHotEnc rows eps effs).concatCol = none) := by
  constructor
  · intro r hlen hr hbad
    have hep := GetOneHotEndpoint_of_err rows eps hlen r hr hbad
    simp only [GetOneHotEnc, hep]
    exact ⟨trivial, trivial, trivial⟩
  · intro r hepnone hlen hr hbad
    have hef := GetOneHotEffect_of_err (GetOneHotEndpoint rows eps).rows effs hlen r hr hbad
    simp only [GetOneHotEnc, hepnone, hef]
    exact ⟨trivial, trivial, trivial⟩

/-- Witness for C7: an unknown endpoint label LC50 and an unknown effect
label XXX both abort with the generic message and leave the columns
unattached. -/
theorem C7_witness :
    ((GetOneHotEnc [Row.mk "LC50" "MOR"] ["EC50", "EC10"] ["MOR"]).err
        = some unexpectedErrorMsg
      ∧ (GetOneHotEnc [Row.mk "LC50" "MOR"] ["EC50", "EC10"] ["MOR"]).endpointCol = none
      ∧ (GetOneHotEnc [Row.mk "LC50" "MOR"] ["EC50", "EC10"] ["MOR"]).concatCol = none)
    ∧ ((GetOneHotEnc [Row.mk "EC50" "XXX"] ["EC50", "EC10"] ["MOR", "DVP"]).err
        = some unexpectedErrorMsg
      ∧ (GetOneHotEnc [Row.mk "EC50" "XXX"] ["EC50", "EC10"] ["MOR", "DVP"]).effectCol = none
      ∧ (GetOneHotEnc [Row.mk "EC50" "XXX"] ["EC50", "EC10"] ["MOR", "DVP"]).concatCol
          = none) :=
  ⟨(C7_unknown_label_error [Row.mk "LC50" "MOR"] ["EC50", "EC10"] ["MOR"]).1
      (Row.mk "LC50" "MOR") (by decide) (by decide) (by decide),
    (C7_unknown_label_error [Row.mk "EC50" "XXX"] ["EC50", "EC10"] ["MOR", "DVP"]).2
      (Row.mk "EC50" "XXX") (by decide) (by decide) (by decide) (by decide)⟩

/-- C8 counterexample: a table whose two combined feature vectors have
lengths 1 and 2 passes the whole pre padding pipeline in src (record
construction and batch grouping) without any error being detected or
reported: both mismatched records are delivered inside one batch to the
padding collator. No ShapeMismatchError exists anywhere in the code. -/
theorem C8_counterexample :
    dataLoaderSampleBatches (fun _ => ([7], [1])) 100
        [InfRow.mk "C" 1 [0], InfRow.mk "O" 2 [0, 1]] 2
      = [[Sample.mk [7] [1] 1 [0], Sample.mk [7] [1] 2 [0, 1]]]
    ∧ (Sample.mk [7] [1] 1 [0]).onehotenc.length
        ≠ (Sample.mk [7] [1] 2 [0, 1]).onehotenc.length := by
  constructor
  · rfl
  · decide

/-- C8 amended: the pipeline performs no shape consistency check before
padding: for every table and positive batch size, every row, whatever the
length of its combined feature vector, is turned into a record and reaches
the padding stage unchanged; a length mismatch can only surface later,
inside the external batch collator. -/
theorem C8_amended (tok : String → List Nat × List Nat) (maxLen : Nat)
    (df : List InfRow) (b : Nat) (hb : 0 < b) :
    (dataLoaderSampleBatches tok maxLen df b).flatten
      = df.map (infGetItem tok maxLen) := by
  unfold dataLoaderSampleBatches
  rw [join_map_filterMap]
  have hidx : (dataLoaderIndexBatches df.length b).flatten = List.range df.length := by
    unfold dataLoaderIndexBatches sequentialSampler
    exact chunksAux_join b hb _ _ (le_refl _)
  rw [hidx]
  exact range_filterMap_get _ df

/-- Witness for C8 amended on the mismatched two row table with batch
size one. -/
theorem C8_amended_witness :
    (dataLoaderSampleBatches (fun _ => ([7], [1])) 100
        [InfRow.mk "C" 1 [0], InfRow.mk "O" 2 [0, 1]] 1).flatten
      = [InfRow.mk "C" 1 [0], InfRow.mk "O" 2 [0, 1]].map
          (infGetItem (fun _ => ([7], [1])) 100) :=
  C8_amended (fun _ => ([7], [1])) 100 [InfRow.mk "C" 1 [0], InfRow.mk "O" 2 [0, 1]] 1
    (by decide)

/-- C9: the batch Predict handler of app.py rebinds its output variable on
every loader iteration, so after the loop only the final batch survives;
on a two row table with the hard coded batch size one, the per row model
outputs of the first row are discarded and the final column assignment
fails the pandas length check instead of producing a prediction pair per
input row. The model forward pass and the power function are abstract;
they do not influence the control flow. -/
theorem C9_last_batch_only :
    appBatchPredict (fun batch => batch.map (fun _ => 0)) (fun y => y)
      (fun _ => ([7], [1])) 100 [InfRow.mk "C" 1 [0], InfRow.mk "N" 2 [0]] 1
      = .error "Length of values does not match length of index" := by
  rfl

theorem renameNOEC_length (rows : List Row) : (renameNOEC rows).length = rows.length := by
  simp [renameNOEC]

theorem mergedEndpointRows_length (rows : List Row) (labels : List String) :
    (mergedEndpointRows rows labels).length = rows.length := by
  unfold mergedEndpointRows
  split
  · exact renameNOEC_length rows
  · rfl

theorem mergedEndpointRows_effect_mem (rows : List Row) (labels : List String)
    (effs : List String) (h : ∀ r ∈ rows, r.effect ∈ effs) :
    ∀ r2 ∈ mergedEndpointRows rows labels, r2.effect ∈ effs := by
  intro r2 h2
  unfold mergedEndpointRows at h2
  split at h2
  · obtain ⟨r, hr, hmap⟩ := List.mem_map.mp h2
    have heff : r2.effect = r.effect := by
      rw [← hmap]
      by_cases hN : r.endpoint = "NOEC"
      · rw [if_pos hN]
      · rw [if_neg hN]
    rw [heff]
    exact h r hr
  · exact h r2 h2

theorem GetOneHotEndpoint_col_length (rows : List Row) (labels : List String)
    (c : List (List Nat)) (h : (GetOneHotEndpoint rows labels).col = some c) :
    c.length = rows.length := by
  simp only [GetOneHotEndpoint] at h
  by_cases h1 : 1 < (workingEndpointLabels labels).length
  · rw [if_pos h1] at h
    cases henc : encodeColumn endpointHotEnc (fun r => r.endpoint)
        (mergedEndpointRows rows labels) with
    | ok c2 =>
      rw [henc] at h
      simp at h
      rw [← h, encodeColumn_ok_length _ _ _ _ henc, mergedEndpointRows_length]
    | error e =>
      rw [henc] at h
      simp at h
  · rw [if_neg h1] at h
    simp at h

theorem GetOneHotEffect_col_length (rows : List Row) (labels : List String)
    (c : List (List Nat)) (h : (GetOneHotEffect rows labels).col = some c) :
    c.length = rows.length := by
  simp only [GetOneHotEffect] at h
  by_cases h1 : 1 < labels.length
  · rw [if_pos h1] at h
    cases henc : encodeColumn (effectHotEnc labels) (fun r => r.effect) rows with
    | ok c2 =>
      rw [henc] at h
      simp at h
      rw [← h, encodeColumn_ok_length _ _ _ _ henc]
    | error e =>
      rw [henc] at h
      simp at h
  · rw [if_neg h1] at h
    simp at h

theorem concatOneHot_length (n : Nat) (epCol efCol : Option (List (List Nat)))
    (hep : ∀ c, epCol = some c → c.length = n)
    (hef : ∀ c, efCol = some c → c.length = n) :
    (concatOneHot n epCol efCol).length = n := by
  cases epCol with
  | none =>
    cases efCol with
    | none => simp [concatOneHot]
    | some c2 => simpa [concatOneHot] using hef c2 rfl
  | some c1 =>
    cases efCol with
    | none => simpa [concatOneHot] using hep c1 rfl
    | some c2 =>
      have h1 := hep c1 rfl
      have h2 := hef c2 rfl
      simp [concatOneHot, List.length_zipWith, h1, h2]

theorem concatOneHot_get (n i : Nat) (hi : i < n) (epCol efCol : Option (List (List Nat)))
    (hep : ∀ c, epCol = some c → c.length = n)
    (hef : ∀ c, efCol = some c → c.length = n) :
    (concatOneHot n epCol efCol).get? i = some
      (if epCol = none ∧ efCol = none then [0]
        else colEntry epCol i ++ colEntry efCol i) := by
  cases epCol with
  | none =>
    cases efCol with
    | none =>
      simp only [concatOneHot, colEntry, and_self, if_pos]
      rw [List.get?_eq_getElem?, List.getElem?_map, List.getElem?_range hi]
      rfl
    | some c2 =>
      have hlen := hef c2 rfl
      have hi2 : i < c2.length := by omega
      simp only [concatOneHot, colEntry]
      rw [List.get?_eq_getElem?, List.getElem?_eq_getElem hi2]
      simp
  | some c1 =>
    have hlen1 := hep c1 rfl
    have hi1 : i < c1.length := by omega
    cases efCol with
    | none =>
      simp only [concatOneHot, colEntry]
      rw [List.get?_eq_getElem?, List.getElem?_eq_getElem hi1]
      simp
    | some c2 =>
      have hlen2 := hef c2 rfl
      have hi2 : i < c2.length := by omega
      simp only [concatOneHot, colEntry]
      rw [List.get?_zipWith']
      rw [List.get?_eq_getElem?, List.getElem?_eq_getElem hi1]
      rw [List.get?_eq_getElem?, List.getElem?_eq_getElem hi2]
      simp

/-- C4: whenever GetOneHotEnc returns without raising, the concatenated
column is present with one entry per input row, and each row entry is the
left to right concatenation of that row entry of the endpoint indicator
column and that row entry of the effect indicator column, in the column
discovery order endpoint then effect; when neither indicator column exists
every row entry is the single element zero vector. -/
theorem C4_concatenation (rows : List Row) (eps effs : List String)
    (h : (GetOneHotEnc rows eps effs).err = none) :
    ∃ cc, (GetOneHotEnc rows eps effs).concatCol = some cc
      ∧ cc.length = rows.length
      ∧ ∀ i, i < rows.length →
          cc.get? i = some
            (if (GetOneHotEnc rows eps effs).endpointCol = none
                ∧ (GetOneHotEnc rows eps effs).effectCol = none
              then [0]
              else colEntry ((GetOneHotEnc rows eps effs).endpointCol) i
                ++ colEntry ((GetOneHotEnc rows eps effs).effectCol) i) := by
  obtain ⟨hep, hef, heq⟩ := GetOneHotEnc_err_none_parts rows eps effs h
  have hepcol : (GetOneHotEnc rows eps effs).endpointCol
      = (GetOneHotEndpoint rows eps).col := by rw [heq]
  have hefcol : (GetOneHotEnc rows eps effs).effectCol
      = (GetOneHotEffect (GetOneHotEndpoint rows eps).rows effs).col := by rw [heq]
  have hcc : (GetOneHotEnc rows eps effs).concatCol
      = some (concatOneHot (GetOneHotEndpoint rows eps).rows.length
          (GetOneHotEndpoint rows eps).col
          (GetOneHotEffect (GetOneHotEndpoint rows eps).rows effs).col) := by rw [heq]
  have hmlen : (GetOneHotEndpoint rows eps).rows.length = rows.length := by
    rw [GetOneHotEndpoint_rows]
    exact mergedEndpointRows_length rows eps
  have hepl : ∀ c, (GetOneHotEndpoint rows eps).col = some c →
      c.length = (GetOneHotEndpoint rows eps).rows.length := by
    intro c hc
    rw [hmlen]
    exact GetOneHotEndpoint_col_length rows eps c hc
  have hefl : ∀ c, (GetOneHotEffect (GetOneHotEndpoint rows eps).rows effs).col = some c →
      c.length = (GetOneHotEndpoint rows eps).rows.length :=
    fun c hc => GetOneHotEffect_col_length _ effs c hc
  refine ⟨concatOneHot (GetOneHotEndpoint rows eps).rows.length
      (GetOneHotEndpoint rows eps).col
      (GetOneHotEffect (GetOneHotEndpoint rows eps).rows effs).col, hcc, ?_, ?_⟩
  · rw [concatOneHot_length _ _ _ hepl hefl, hmlen]
  · intro i hi
    rw [hepcol, hefcol]
    exact concatOneHot_get _ i (by rw [hmlen]; exact hi) _ _ hepl hefl

/-- Witness for C4 on a table with an endpoint column attached and no
effect column. -/
theorem C4_witness :
    ∃ cc, (GetOneHotEnc [Row.mk "EC50" "MOR", Row.mk "EC10" "MOR"]
        ["EC50", "EC10"] ["MOR"]).concatCol = some cc
      ∧ cc.length = ([Row.mk "EC50" "MOR", Row.mk "EC10" "MOR"] : List Row).length
      ∧ ∀ i, i < ([Row.mk "EC50" "MOR", Row.mk "EC10" "MOR"] : List Row).length →
          cc.get? i = some
            (if (GetOneHotEnc [Row.mk "EC50" "MOR", Row.mk "EC10" "MOR"]
                  ["EC50", "EC10"] ["MOR"]).endpointCol = none
                ∧ (GetOneHotEnc [Row.mk "EC50" "MOR", Row.mk "EC10" "MOR"]
                  ["EC50", "EC10"] ["MOR"]).effectCol = none
              then [0]
              else colEntry ((GetOneHotEnc [Row.mk "EC50" "MOR", Row.mk "EC10" "MOR"]
                  ["EC50", "EC10"] ["MOR"]).endpointCol) i
                ++ colEntry ((GetOneHotEnc [Row.mk "EC50" "MOR", Row.mk "EC10" "MOR"]
                  ["EC50", "EC10"] ["MOR"]).effectCol) i) :=
  C4_concatenation [Row.mk "EC50" "MOR", Row.mk "EC10" "MOR"]
    ["EC50", "EC10"] ["MOR"] (by decide)

/-- Helper for C3: either order of the two endpoint labels leaves a
working list with more than one entry. -/
theorem workingEndpointLabels_two (eps : List String)
    (h : eps = ["EC50", "EC10"] ∨ eps = ["EC10", "EC50"]) :
    1 < (workingEndpointLabels eps).length := by
  rcases h with h | h <;> subst h <;> decide

/-- C3: for a table whose endpoint values after the NOEC merge are exactly
EC50 and EC10, GetOneHotEnc succeeds and attaches the endpoint indicator
column in which every EC50 row reads [1,0] and every EC10 row reads [0,1]
(two wide, mutually exclusive unit vectors), for either order of the
caller supplied endpoint label list (the encoding order is the fixed
[EC50, EC10]); the effect indicator positions instead follow the caller
supplied effect label order: a row whose effect is the j-th declared
effect label receives the j-th identity matrix row. -/
theorem C3_fixed_endpoint_order (rows : List Row) (eps effs : List String)
    (heps : eps = ["EC50", "EC10"] ∨ eps = ["EC10", "EC50"])
    (hvals : ∀ r ∈ mergedEndpointRows rows eps,
      r.endpoint = "EC50" ∨ r.endpoint = "EC10")
    (hboth : (∃ r ∈ mergedEndpointRows rows eps, r.endpoint = "EC50")
      ∧ (∃ r ∈ mergedEndpointRows rows eps, r.endpoint = "EC10"))
    (hnd : effs.Nodup) (heffl : 1 < effs.length)
    (heffmem : ∀ r ∈ rows, r.effect ∈ effs) :
    (GetOneHotEnc rows eps effs).err = none
    ∧ (GetOneHotEnc rows eps effs).endpointCol
        = some ((mergedEndpointRows rows eps).map
            (fun r => if r.endpoint = "EC50" then [1, 0] else [0, 1]))
    ∧ ∃ ecol, (GetOneHotEnc rows eps effs).effectCol = some ecol
        ∧ ∀ (i : Nat) (hi : i < (mergedEndpointRows rows eps).length)
            (j : Nat) (hj : j < effs.length),
            ((mergedEndpointRows rows eps).get ⟨i, hi⟩).effect = effs.get ⟨j, hj⟩ →
            ecol.get? i = some (eyeRow effs.length j) := by
  have hlen2 := workingEndpointLabels_two eps heps
  have hsome : ∀ r ∈ mergedEndpointRows rows eps, (endpointHotEnc r.endpoint).isSome := by
    intro r hr
    rcases hvals r hr with h5 | h5 <;> simp [endpointHotEnc_eq, h5]
  have hepeq := GetOneHotEndpoint_of_ok rows eps hlen2 hsome
  have hmapeq : (mergedEndpointRows rows eps).map
        (fun r => (endpointHotEnc r.endpoint).getD [])
      = (mergedEndpointRows rows eps).map
        (fun r => if r.endpoint = "EC50" then [1, 0] else [0, 1]) := by
    apply List.map_congr_left
    intro r hr
    rcases hvals r hr with h5 | h5 <;> simp [endpointHotEnc_eq, h5]
  have heffmem2 : ∀ r ∈ (GetOneHotEndpoint rows eps).rows, r.effect ∈ effs := by
    rw [GetOneHotEndpoint_rows]
    exact mergedEndpointRows_effect_mem rows eps effs heffmem
  have hefsome : ∀ r ∈ (GetOneHotEndpoint rows eps).rows,
      (effectHotEnc effs r.effect).isSome := by
    intro r hr
    rw [Option.isSome_iff_ne_none]
    intro hn
    exact (effectHotEnc_eq_none_iff effs r.effect).mp hn (heffmem2 r hr)
  have hefeq := GetOneHotEffect_of_ok (GetOneHotEndpoint rows eps).rows effs heffl hefsome
  have hepn : (GetOneHotEndpoint rows eps).err = none := by rw [hepeq]
  have hefn : (GetOneHotEffect (GetOneHotEndpoint rows eps).rows effs).err = none := by
    rw [hefeq]
  have heq := GetOneHotEnc_err_none_parts2 rows eps effs hepn hefn
  refine ⟨by rw [heq], ?_, ?_⟩
  · have hcol : (GetOneHotEnc rows eps effs).endpointCol
        = (GetOneHotEndpoint rows eps).col := by rw [heq]
    rw [hcol, hepeq]
    exact congrArg some hmapeq
  · have hecol : (GetOneHotEnc rows eps effs).effectCol
        = (GetOneHotEffect (GetOneHotEndpoint rows eps).rows effs).col := by rw [heq]
    refine ⟨(GetOneHotEndpoint rows eps).rows.map
        (fun r => (effectHotEnc effs r.effect).getD []), ?_, ?_⟩
    · rw [hecol, hefeq]
    · intro i hi j hj hmatch
      have hrowseq : (GetOneHotEndpoint rows eps).rows = mergedEndpointRows rows eps :=
        GetOneHotEndpoint_rows rows eps
      rw [hrowseq]
      rw [List.get?_eq_getElem?, List.getElem?_map, List.getElem?_eq_getElem hi]
      show some ((effectHotEnc effs
          ((mergedEndpointRows rows eps).get ⟨i, hi⟩).effect).getD [])
        = some (eyeRow effs.length j)
      rw [hmatch, effectHotEnc_get effs hnd j hj]
      rfl

/-- Witness for C3 on a two row table with both endpoints, the reversed
endpoint label order and two effect labels. -/
theorem C3_witness :
    (GetOneHotEnc [Row.mk "EC50" "MOR", Row.mk "EC10" "DVP"]
      ["EC10", "EC50"] ["MOR", "DVP"]).err = none :=
  (C3_fixed_endpoint_order [Row.mk "EC50" "MOR", Row.mk "EC10" "DVP"]
    ["EC10", "EC50"] ["MOR", "DVP"] (Or.inr rfl) (by decide)
    ⟨by decide, by decide⟩ (by decide) (by decide) (by decide)).1
